import Mathlib

/-!
Verification development for the job-adventure matching backend.

The definitions below are shallow embeddings of the Python services in
`backend/app`: the matching engine (`matching_engine.py`), the similarity
service (`similarity_service.py`), the skill extraction service
(`skill_extraction_service.py`), the embedding service
(`embedding_service.py`), the explanation service
(`explanation_service.py`), the resilience primitives
(`core/error_handler.py`) and the match-result repository
(`repositories/match_result.py`).  Python floats are idealised as exact
rationals (or reals where square roots and exponentials occur), Python
`round(x, 2)` is modelled as round-half-to-even at two decimals, Python
sets of strings are modelled as `Finset String`, and the asynchronous
call structure is modelled by explicit state passing.
-/

/-- Python `round` to the nearest integer, ties to even (bankers rounding),
on exact rationals. -/
def pyRound (q : ℚ) : ℤ :=
  if Int.fract q = 1/2 then (if Even ⌊q⌋ then ⌊q⌋ else ⌊q⌋ + 1) else round q

/-- Python `round(x, 2)`: round to two decimal places, ties to even. -/
def pyRound2 (q : ℚ) : ℚ := (pyRound (q * 100) : ℚ) / 100

theorem pyRound_le_of_le {q : ℚ} {b : ℤ} (hb : q ≤ (b : ℚ)) : pyRound q ≤ b := by
  unfold pyRound
  split
  · rename_i htie
    have hfl : ⌊q⌋ ≤ b := by
      have := Int.floor_le_floor hb
      simpa using this
    have hq : q = (⌊q⌋ : ℚ) + 1/2 := by
      have h2 := Int.fract_add_floor q
      rw [htie] at h2
      linarith
    have hlt2 : ⌊q⌋ < b := by
      have hlt : (⌊q⌋ : ℚ) < (b : ℚ) := by rw [hq] at hb; linarith
      exact_mod_cast hlt
    split
    · exact hfl
    · omega
  · rw [round_eq]
    have h1 : q + 1/2 < (b : ℚ) + 1 := by linarith
    have h2 : ⌊q + 1/2⌋ < b + 1 := by
      rw [Int.floor_lt]
      push_cast
      linarith
    omega

theorem pyRound_ge_of_ge {q : ℚ} {a : ℤ} (ha : (a : ℚ) ≤ q) : a ≤ pyRound q := by
  unfold pyRound
  split
  · have hfl : a ≤ ⌊q⌋ := by
      have := Int.floor_le_floor ha
      simpa using this
    split
    · exact hfl
    · omega
  · rw [round_eq]
    have h1 : (a : ℚ) ≤ q + 1/2 := by linarith
    have := Int.floor_le_floor h1
    simpa using this

theorem pyRound2_bounds {q a b : ℚ} (hq1 : a ≤ q) (hq2 : q ≤ b)
    (ha : ∃ m : ℤ, a = (m : ℚ) / 100) (hb : ∃ n : ℤ, b = (n : ℚ) / 100) :
    a ≤ pyRound2 q ∧ pyRound2 q ≤ b := by
  obtain ⟨m, rfl⟩ := ha
  obtain ⟨n, rfl⟩ := hb
  constructor
  · have h1 : (m : ℚ) ≤ q * 100 := by linarith [hq1]
    have h2 := pyRound_ge_of_ge h1
    unfold pyRound2
    rw [div_le_div_iff_of_pos_right (by norm_num : (0:ℚ) < 100)] at *
    exact_mod_cast h2
  · have h1 : q * 100 ≤ (n : ℚ) := by linarith [hq2]
    have h2 := pyRound_le_of_le h1
    unfold pyRound2
    rw [div_le_div_iff_of_pos_right (by norm_num : (0:ℚ) < 100)]
    exact_mod_cast h2

/-! ### A stable descending insertion sort

The Python `list.sort(key=..., reverse=True)` call is modelled by an insertion
sort on a rational key; the claims only rely on the output being a
permutation of the input that is pairwise descending on the key. -/

def insertDesc {α : Type} (key : α → ℚ) (m : α) : List α → List α
  | [] => [m]
  | x :: xs => if key x ≤ key m then m :: x :: xs else x :: insertDesc key m xs

def sortDesc {α : Type} (key : α → ℚ) (l : List α) : List α :=
  l.foldr (insertDesc key) []

theorem insertDesc_perm {α : Type} (key : α → ℚ) (m : α) (l : List α) :
    (insertDesc key m l).Perm (m :: l) := by
  induction l with
  | nil => simp [insertDesc]
  | cons x xs ih =>
    unfold insertDesc
    split
    · exact List.Perm.refl _
    · exact (ih.cons x).trans (List.Perm.swap m x xs)

theorem sortDesc_perm {α : Type} (key : α → ℚ) (l : List α) :
    (sortDesc key l).Perm l := by
  induction l with
  | nil => simp [sortDesc]
  | cons x xs ih =>
    have h1 : sortDesc key (x :: xs) = insertDesc key x (sortDesc key xs) := rfl
    rw [h1]
    exact (insertDesc_perm key x (sortDesc key xs)).trans (ih.cons x)

theorem mem_insertDesc {α : Type} {key : α → ℚ} {m y : α} {l : List α} :
    y ∈ insertDesc key m l ↔ y = m ∨ y ∈ l := by
  rw [(insertDesc_perm key m l).mem_iff]
  simp

theorem insertDesc_pairwise {α : Type} {key : α → ℚ} {m : α} {l : List α}
    (h : l.Pairwise (fun a b => key b ≤ key a)) :
    (insertDesc key m l).Pairwise (fun a b => key b ≤ key a) := by
  induction l with
  | nil => simp [insertDesc]
  | cons x xs ih =>
    unfold insertDesc
    rcases List.pairwise_cons.1 h with ⟨hx, hxs⟩
    split
    · rename_i hle
      refine List.pairwise_cons.2 ⟨?_, h⟩
      intro y hy
      rcases List.mem_cons.1 hy with rfl | hmem
      · exact hle
      · exact (hx y hmem).trans hle
    · rename_i hlt
      refine List.pairwise_cons.2 ⟨?_, ih hxs⟩
      intro y hy
      rcases mem_insertDesc.1 hy with rfl | hmem
      · exact le_of_not_le hlt
      · exact hx y hmem

theorem sortDesc_pairwise {α : Type} (key : α → ℚ) (l : List α) :
    (sortDesc key l).Pairwise (fun a b => key b ≤ key a) := by
  induction l with
  | nil => simp [sortDesc]
  | cons x xs ih => exact insertDesc_pairwise ih

/-! ### Data model of the matching engine (`matching_engine.py`)

Skill name sets extracted by the skill service are Python sets of strings;
the Python code materialises them back into lists in unspecified order,
so all skill collections are modelled directly as `Finset String`. -/

/-- Result record of `SimilarityService.calculate_match_score`. -/
structure SimilarityResult where
  job_id : String
  resume_id : String
  similarity_score : ℚ
  match_percentage : ℚ
  confidence : ℚ
deriving DecidableEq

/-- Result record of `SkillExtractionService.compare_skills`. -/
structure SkillMatch where
  matched_skills : Finset String
  missing_skills : Finset String
  additional_skills : Finset String
  match_percentage : ℚ
deriving DecidableEq

/-- The `ComprehensiveMatch` pydantic model of `matching_engine.py`. -/
structure ComprehensiveMatch where
  job_id : String
  resume_id : String
  overall_score : ℚ
  similarity_score : ℚ
  skill_match_percentage : ℚ
  matched_skills : Finset String
  missing_skills : Finset String
  additional_skills : Finset String
  explanation : String
  confidence : ℚ
deriving DecidableEq

/-- The `MatchingRequest` pydantic model.  `max_results : Optional[int]` is
a Python integer, so it is modelled as `Option ℤ`. -/
structure MatchingRequest where
  job_id : String
  resume_ids : Option (List String)
  include_explanations : Bool
  min_score_threshold : ℚ
  max_results : Option ℤ

/-- Scoring core of `MatchingEngine.calculate_comprehensive_match`
(lines 261-296): the weighted combination of the similarity percentage and
the skill-match percentage, rounded to two decimals, packaged with the
skill lists, explanation and similarity-derived confidence. -/
def calculate_comprehensive_match (job_id resume_id : String)
    (similarity_result : SimilarityResult) (skill_match : SkillMatch)
    (explanation : String) : ComprehensiveMatch :=
  let similarity_weight : ℚ := 0.7
  let skill_weight : ℚ := 0.3
  let overall_score :=
    similarity_result.match_percentage * similarity_weight +
    skill_match.match_percentage * skill_weight
  { job_id := job_id
    resume_id := resume_id
    overall_score := pyRound2 overall_score
    similarity_score := similarity_result.match_percentage
    skill_match_percentage := skill_match.match_percentage
    matched_skills := skill_match.matched_skills
    missing_skills := skill_match.missing_skills
    additional_skills := skill_match.additional_skills
    explanation := explanation
    confidence := similarity_result.confidence }

/-- Python list slicing `l[:n]`: for a negative bound it drops the last
`|n|` elements. -/
def pySliceTake {α : Type} (l : List α) (n : ℤ) : List α :=
  if 0 ≤ n then l.take n.toNat else l.take ((l.length : ℤ) + n).toNat

/-- The `if request.max_results: successful_matches[:request.max_results]`
step: Python truthiness makes both `None` and `0` skip the truncation. -/
def applyMaxResults {α : Type} (l : List α) : Option ℤ → List α
  | some n => if n = 0 then l else pySliceTake l n
  | none => l

/-- Post-computation pipeline of `MatchingEngine.match_resumes_to_job`
(lines 392-406): keep results whose `overall_score` reaches the request
threshold, sort by `overall_score` descending, then truncate. -/
def matchPipeline (computed : List ComprehensiveMatch) (req : MatchingRequest) :
    List ComprehensiveMatch :=
  let successful := computed.filter (fun m => req.min_score_threshold ≤ m.overall_score)
  let sorted := sortDesc (fun m => m.overall_score) successful
  applyMaxResults sorted req.max_results

/-- Cache-miss path of `match_resumes_to_job` (lines 377-434): the first
component is the returned list, the second is the `cache_data` batch
written to the distributed cache (built from `successful_matches`, i.e.
after filtering, sorting and truncation). -/
def match_resumes_to_job_missPath (computed : List ComprehensiveMatch)
    (req : MatchingRequest) : List ComprehensiveMatch × List ComprehensiveMatch :=
  let successful0 := computed.filter (fun m => req.min_score_threshold ≤ m.overall_score)
  let sorted := sortDesc (fun m => m.overall_score) successful0
  let successful_matches := applyMaxResults sorted req.max_results
  let cache_data := successful_matches
  (successful_matches, cache_data)

/-- Cache-hit path of `match_resumes_to_job` (lines 348-375): cached
entries are reconstructed and the request threshold, descending sort and
`max_results` truncation are applied again. -/
def match_resumes_to_job_hitPath (cached : List ComprehensiveMatch)
    (req : MatchingRequest) : List ComprehensiveMatch :=
  let successful0 := cached.filter (fun m => req.min_score_threshold ≤ m.overall_score)
  let sorted := sortDesc (fun m => m.overall_score) successful0
  applyMaxResults sorted req.max_results

theorem pySliceTake_sublist {α : Type} (l : List α) (n : ℤ) :
    (pySliceTake l n).Sublist l := by
  unfold pySliceTake
  split <;> exact List.take_sublist _ _

theorem applyMaxResults_sublist {α : Type} (l : List α) (mr : Option ℤ) :
    (applyMaxResults l mr).Sublist l := by
  cases mr with
  | none => exact List.Sublist.refl _
  | some n =>
    by_cases h : n = 0
    · rw [show applyMaxResults l (some n) = l by simp [applyMaxResults, h]]
    · rw [show applyMaxResults l (some n) = pySliceTake l n by simp [applyMaxResults, h]]
      exact pySliceTake_sublist l n

theorem matchPipeline_mem (computed : List ComprehensiveMatch)
    (req : MatchingRequest) :
    ∀ m ∈ matchPipeline computed req, req.min_score_threshold ≤ m.overall_score := by
  intro m hm
  have h1 : m ∈ sortDesc (fun m => m.overall_score)
      (computed.filter (fun m => decide (req.min_score_threshold ≤ m.overall_score))) :=
    (applyMaxResults_sublist _ _).mem hm
  have h2 := (sortDesc_perm (fun m : ComprehensiveMatch => m.overall_score) _).mem_iff.1 h1
  have := List.of_mem_filter h2
  exact of_decide_eq_true this

theorem matchPipeline_sorted (computed : List ComprehensiveMatch)
    (req : MatchingRequest) :
    (matchPipeline computed req).Pairwise
      (fun a b => b.overall_score ≤ a.overall_score) :=
  (sortDesc_pairwise _ _).sublist (applyMaxResults_sublist _ _)

theorem matchPipeline_length_le (computed : List ComprehensiveMatch)
    (req : MatchingRequest) (n : ℤ) (hn : req.max_results = some n) (hpos : 0 < n) :
    ((matchPipeline computed req).length : ℤ) ≤ n := by
  have hne : ¬ n = 0 := by omega
  have h0 : matchPipeline computed req =
      (sortDesc (fun m => m.overall_score)
        (computed.filter (fun m => req.min_score_threshold ≤ m.overall_score))).take n.toNat := by
    simp only [matchPipeline, applyMaxResults, hn, if_neg hne, pySliceTake,
      if_pos hpos.le]
  rw [h0]
  have h1 := List.length_take_le n.toNat
    (sortDesc (fun m : ComprehensiveMatch => m.overall_score)
      (computed.filter (fun m => req.min_score_threshold ≤ m.overall_score)))
  calc ((List.take n.toNat _).length : ℤ) ≤ (n.toNat : ℤ) := by exact_mod_cast h1
    _ = n := Int.toNat_of_nonneg (le_of_lt hpos)

theorem matchPipeline_max_zero (computed : List ComprehensiveMatch)
    (req : MatchingRequest) (hn : req.max_results = some 0) :
    matchPipeline computed req =
      sortDesc (fun m => m.overall_score)
        (computed.filter (fun m => req.min_score_threshold ≤ m.overall_score)) := by
  simp [matchPipeline, applyMaxResults, hn]

/-- Helper: a `ComprehensiveMatch` with a given resume id and overall score,
used to instantiate the worked examples from the spec. -/
def mkScoredMatch (rid : String) (s : ℚ) : ComprehensiveMatch :=
  { job_id := "job-1", resume_id := rid, overall_score := s,
    similarity_score := s, skill_match_percentage := 0,
    matched_skills := ∅, missing_skills := ∅, additional_skills := ∅,
    explanation := "", confidence := 0 }

/-- Helper: a `MatchingRequest` for the worked examples. -/
def mkRequest (threshold : ℚ) (mr : Option ℤ) : MatchingRequest :=
  { job_id := "job-1", resume_ids := none, include_explanations := true,
    min_score_threshold := threshold, max_results := mr }

/-- Helper: the spec example batch of five computed overall scores. -/
def fiveScores : List ComprehensiveMatch :=
  [mkScoredMatch "r90" 90, mkScoredMatch "r72" 72, mkScoredMatch "r65" 65,
    mkScoredMatch "r40" 40, mkScoredMatch "r10" 10]

/-- C1: for every similarity match percentage and skill match percentage the
overall score computed by `calculate_comprehensive_match` is
`0.7 * similarity + 0.3 * skill_match` rounded to two decimal places, and
for similarity 80.0 and skill match 50.0 it is exactly 71.0. -/
theorem calculate_comprehensive_match_overall_score
    (job_id resume_id explanation : String)
    (sim : SimilarityResult) (sk : SkillMatch) :
    (calculate_comprehensive_match job_id resume_id sim sk explanation).overall_score
      = pyRound2 (0.7 * sim.match_percentage + 0.3 * sk.match_percentage) ∧
    (calculate_comprehensive_match "j" "r"
        { job_id := "j", resume_id := "r", similarity_score := 0,
          match_percentage := 80, confidence := 0 }
        { matched_skills := ∅, missing_skills := ∅, additional_skills := ∅,
          match_percentage := 50 } "e").overall_score = 71 := by
  constructor
  · show pyRound2 (sim.match_percentage * 0.7 + sk.match_percentage * 0.3) = _
    congr 1
    ring
  · show pyRound2 ((80 : ℚ) * 0.7 + 50 * 0.3) = 71
    norm_num [pyRound2, pyRound, Int.fract]

/-- C2 (amended): `match_resumes_to_job` returns only matches whose
`overall_score` reaches `min_score_threshold`, sorted descending by
`overall_score`, truncated to `max_results` when it is set and positive
(a `max_results` of `0` is falsy in Python and applies no truncation);
for five computed overall scores 90, 72, 65, 40, 10 and threshold 70 it
returns exactly the matches scoring 90 and 72, in that order. -/
theorem match_resumes_to_job_filter_sort_truncate
    (computed : List ComprehensiveMatch) (req : MatchingRequest) :
    (∀ m ∈ matchPipeline computed req, req.min_score_threshold ≤ m.overall_score) ∧
    (matchPipeline computed req).Pairwise
      (fun a b => b.overall_score ≤ a.overall_score) ∧
    (∀ n : ℤ, req.max_results = some n → 0 < n →
      ((matchPipeline computed req).length : ℤ) ≤ n) ∧
    (req.max_results = some 0 →
      matchPipeline computed req = sortDesc (fun m => m.overall_score)
        (computed.filter (fun m => req.min_score_threshold ≤ m.overall_score))) ∧
    matchPipeline fiveScores (mkRequest 70 none)
      = [mkScoredMatch "r90" 90, mkScoredMatch "r72" 72] :=
  ⟨matchPipeline_mem computed req, matchPipeline_sorted computed req,
    fun n hn hpos => matchPipeline_length_le computed req n hn hpos,
    fun hn => matchPipeline_max_zero computed req hn, by decide⟩

theorem match_resumes_to_job_filter_sort_truncate_witness :
    ((matchPipeline fiveScores (mkRequest 70 (some 1))).length : ℤ) ≤ 1 ∧
    (70 : ℚ) ≤ (mkScoredMatch "r90" 90).overall_score :=
  ⟨(match_resumes_to_job_filter_sort_truncate fiveScores
      (mkRequest 70 (some 1))).2.2.1 1 rfl (by decide),
    (match_resumes_to_job_filter_sort_truncate fiveScores
      (mkRequest 70 none)).1 (mkScoredMatch "r90" 90) (by decide)⟩

/-- C2 counterexample: with `max_results = 0` the claim as stated forces an
empty result, but the code skips the truncation (Python `if
request.max_results:` is false for `0`) and returns both surviving
matches. -/
theorem match_resumes_to_job_max_results_zero_counterexample :
    ¬ (((matchPipeline fiveScores (mkRequest 70 (some 0))).length : ℤ) ≤ 0) := by
  decide

/-- C7 (amended): on a cache miss `match_resumes_to_job` writes the
already-filtered, sorted and truncated result list (not the full
unfiltered batch) to the distributed cache, and on a cache hit it
re-applies the request threshold, descending sort and `max_results`
truncation to the cached entries. -/
theorem match_resumes_to_job_cache_paths
    (computed cached : List ComprehensiveMatch) (req : MatchingRequest) :
    (match_resumes_to_job_missPath computed req).2 = matchPipeline computed req ∧
    (match_resumes_to_job_missPath computed req).1 = matchPipeline computed req ∧
    match_resumes_to_job_hitPath cached req = matchPipeline cached req ∧
    (∀ m ∈ match_resumes_to_job_hitPath cached req,
      req.min_score_threshold ≤ m.overall_score) ∧
    (match_resumes_to_job_hitPath cached req).Pairwise
      (fun a b => b.overall_score ≤ a.overall_score) :=
  ⟨rfl, rfl, rfl, matchPipeline_mem cached req, matchPipeline_sorted cached req⟩

theorem match_resumes_to_job_cache_paths_witness :
    (70 : ℚ) ≤ (mkScoredMatch "r90" 90).overall_score :=
  (match_resumes_to_job_cache_paths [] fiveScores (mkRequest 70 none)).2.2.2.1
    (mkScoredMatch "r90" 90) (by decide)

/-- C7 counterexample: at a concrete input whose computed batch holds
scores 90 and 60 with threshold 70, the data written to the cache is not
the full unfiltered, unsorted batch. -/
theorem match_resumes_to_job_cache_write_counterexample :
    (match_resumes_to_job_missPath
        [mkScoredMatch "r90" 90, mkScoredMatch "r60" 60] (mkRequest 70 none)).2
      ≠ [mkScoredMatch "r90" 90, mkScoredMatch "r60" 60] := by
  decide

/-! ### Characterwise models of the Python string methods

`String.toLower`, `String.trim` and friends do not reduce well in the
kernel, so the Python string methods used by the services are modelled
directly on the character list of the string. -/

/-- Python `str.lower()`, modelled characterwise. -/
def pyLower (s : String) : String := String.mk (s.data.map Char.toLower)

/-- Python `str.strip()`: drop leading and trailing whitespace. -/
def pyStrip (s : String) : String :=
  String.mk (((s.data.dropWhile Char.isWhitespace).reverse.dropWhile Char.isWhitespace).reverse)

/-- Python `s[:n]` character slicing for a nonnegative bound. -/
def pyTake (s : String) (n : ℕ) : String := String.mk (s.data.take n)

def wordsAux : List Char → List Char → List (List Char)
  | [], acc => if acc = [] then [] else [acc.reverse]
  | c :: cs, acc =>
    if c.isWhitespace then
      (if acc = [] then wordsAux cs [] else acc.reverse :: wordsAux cs [])
    else wordsAux cs (c :: acc)

/-- Python `str.split()` with no argument: split on whitespace runs,
dropping empty fields. -/
def pyWords (s : String) : List String := (wordsAux s.data []).map String.mk

/-- Python `sep.join(parts)`. -/
def joinWith (sep : String) : List String → String
  | [] => ""
  | [x] => x
  | x :: xs => x ++ sep ++ joinWith sep xs

/-- Python `needle in haystack` substring test, on character lists. -/
def listContainsSub (needle : List Char) : List Char → Bool
  | [] => needle.isPrefixOf []
  | c :: cs => needle.isPrefixOf (c :: cs) || listContainsSub needle cs

/-! ### Skill comparison (`skill_extraction_service.py`) -/

/-- The `skill_synonyms` table of `SkillExtractionService.__init__`, in
dictionary insertion order. -/
def skill_synonyms : List (String × List String) := [
  ("javascript", ["js", "ecmascript"]),
  ("typescript", ["ts"]),
  ("python", ["py"]),
  ("postgresql", ["postgres", "psql"]),
  ("mongodb", ["mongo"]),
  ("node.js", ["nodejs", "node"]),
  ("react.js", ["react", "reactjs"]),
  ("angular.js", ["angular", "angularjs"]),
  ("vue.js", ["vue", "vuejs"]),
  ("machine learning", ["ml", "artificial intelligence", "ai"]),
  ("deep learning", ["dl", "neural networks"]),
  ("natural language processing", ["nlp"]),
  ("computer vision", ["cv"]),
  ("devops", ["dev ops", "development operations"]),
  ("ci/cd", ["continuous integration", "continuous deployment"]),
  ("rest api", ["restful api", "rest", "api"]),
  ("graphql", ["graph ql"]),
  ("microservices", ["micro services"]),
  ("agile", ["scrum", "kanban"]),
  ("project management", ["pm", "program management"])]

/-- The `_normalize_skill` method: lowercase, strip, then canonicalise
through the first matching synonym-table entry. -/
def normalize_skill (skill : String) : String :=
  let s := pyStrip (pyLower skill)
  match skill_synonyms.find? (fun p => p.2.contains s || p.1 == s) with
  | some p => p.1
  | none => s

/-- The `compare_skills` method (lines 352-402): normalise both skill
lists into sets, take intersection and differences, and compute the
match percentage against the job-side set (0 when it is empty), rounded
to two decimals. -/
def compare_skills (job_skills resume_skills : List String) : SkillMatch :=
  let job_skills_normalized := (job_skills.map normalize_skill).toFinset
  let resume_skills_normalized := (resume_skills.map normalize_skill).toFinset
  let matched_skills := job_skills_normalized ∩ resume_skills_normalized
  let missing_skills := job_skills_normalized \ resume_skills_normalized
  let additional_skills := resume_skills_normalized \ job_skills_normalized
  let match_percentage : ℚ :=
    if job_skills_normalized ≠ ∅ then
      ((matched_skills.card : ℚ) / (job_skills_normalized.card : ℚ)) * 100
    else 0
  { matched_skills := matched_skills
    missing_skills := missing_skills
    additional_skills := additional_skills
    match_percentage := pyRound2 match_percentage }

/-- C4: `compare_skills` returns the intersection of the normalised job
and resume skill sets, the job-only and resume-only differences, and the
matched fraction of the normalised job skills as a percentage rounded to
two decimals (0 when the job set is empty); for job skills
python, sql, aws against resume skills python, aws, docker this gives
matched python, aws; missing sql; additional docker; and a match
percentage of 66.67, within 0.01 of 200/3. -/
theorem compare_skills_spec (job_skills resume_skills : List String) :
    ((compare_skills job_skills resume_skills).matched_skills =
      (job_skills.map normalize_skill).toFinset ∩
        (resume_skills.map normalize_skill).toFinset) ∧
    ((compare_skills job_skills resume_skills).missing_skills =
      (job_skills.map normalize_skill).toFinset \
        (resume_skills.map normalize_skill).toFinset) ∧
    ((compare_skills job_skills resume_skills).additional_skills =
      (resume_skills.map normalize_skill).toFinset \
        (job_skills.map normalize_skill).toFinset) ∧
    ((compare_skills job_skills resume_skills).match_percentage =
      pyRound2 (if (job_skills.map normalize_skill).toFinset ≠ ∅ then
        ((((job_skills.map normalize_skill).toFinset ∩
            (resume_skills.map normalize_skill).toFinset).card : ℚ) /
          ((job_skills.map normalize_skill).toFinset.card : ℚ)) * 100
        else 0)) ∧
    (compare_skills ["python", "sql", "aws"]
        ["python", "aws", "docker"]).matched_skills = {"python", "aws"} ∧
    (compare_skills ["python", "sql", "aws"]
        ["python", "aws", "docker"]).missing_skills = {"sql"} ∧
    (compare_skills ["python", "sql", "aws"]
        ["python", "aws", "docker"]).additional_skills = {"docker"} ∧
    (compare_skills ["python", "sql", "aws"]
        ["python", "aws", "docker"]).match_percentage = 6667/100 ∧
    |(compare_skills ["python", "sql", "aws"]
        ["python", "aws", "docker"]).match_percentage - 200/3| ≤ 1/100 := by
  have h1 : (compare_skills ["python", "sql", "aws"]
      ["python", "aws", "docker"]).match_percentage =
      pyRound2 (((2 : ℚ) / 3) * 100) := by
    show pyRound2 _ = _
    congr 1
  have h2 : (compare_skills ["python", "sql", "aws"]
      ["python", "aws", "docker"]).match_percentage = 6667/100 := by
    rw [h1]
    norm_num [pyRound2, pyRound, Int.fract, round_eq]
  refine ⟨rfl, rfl, rfl, rfl, by decide, by decide, by decide, h2, ?_⟩
  rw [h2, abs_le]
  norm_num

/-! ### Circuit breaker (`core/error_handler.py`, lines 25-83)

The decorator produced by `CircuitBreaker.__call__` is modelled as an
atomic step `cbCall` on the breaker state: the wrapped function either
succeeds or raises an expected exception (`callSucceeds`), unless the
breaker rejects the call outright.  Wall-clock instants from
`time.time()` are rational numbers. -/

/-- The `self.state` strings "CLOSED", "OPEN", "HALF_OPEN". -/
inductive CBState where
  | closed
  | opened
  | halfOpen
deriving DecidableEq

structure CircuitBreaker where
  failure_threshold : ℕ
  recovery_timeout : ℚ
  failure_count : ℕ
  last_failure_time : Option ℚ
  state : CBState
deriving DecidableEq

/-- The `CircuitBreaker.__init__` state. -/
def CircuitBreaker.init (threshold : ℕ) (timeout : ℚ) : CircuitBreaker :=
  { failure_threshold := threshold, recovery_timeout := timeout,
    failure_count := 0, last_failure_time := none, state := CBState.closed }

/-- The `_should_attempt_reset` method. -/
def should_attempt_reset (cb : CircuitBreaker) (now : ℚ) : Bool :=
  match cb.last_failure_time with
  | none => true
  | some t => decide (cb.recovery_timeout ≤ now - t)

/-- The `_on_success` method. -/
def on_success (cb : CircuitBreaker) : CircuitBreaker :=
  { cb with failure_count := 0, state := CBState.closed }

/-- The `_on_failure` method. -/
def on_failure (cb : CircuitBreaker) (now : ℚ) : CircuitBreaker :=
  let fc := cb.failure_count + 1
  { cb with
    failure_count := fc
    last_failure_time := some now
    state := if cb.failure_threshold ≤ fc then CBState.opened else cb.state }

/-- Observable outcome of one guarded call: rejected without invoking the
wrapped function, or invoked and succeeded, or invoked and failed. -/
inductive CallOutcome where
  | rejected
  | succeeded
  | failed
deriving DecidableEq

/-- One pass through the `wrapper` closure of `CircuitBreaker.__call__`. -/
def cbCall (cb : CircuitBreaker) (now : ℚ) (callSucceeds : Bool) :
    CircuitBreaker × CallOutcome :=
  if cb.state = CBState.opened ∧ ¬ should_attempt_reset cb now then
    (cb, CallOutcome.rejected)
  else
    let cb1 := if cb.state = CBState.opened then
      { cb with state := CBState.halfOpen } else cb
    if callSucceeds then (on_success cb1, CallOutcome.succeeded)
    else (on_failure cb1 now, CallOutcome.failed)

/-- A sequence of consecutive failing guarded calls at the given instants. -/
def applyFailures (cb : CircuitBreaker) (ts : List ℚ) : CircuitBreaker :=
  ts.foldl (fun c t => (cbCall c t false).1) cb

/-- Reachability invariant: away from `closed`, the failure count has
reached the threshold. -/
def cbInv (cb : CircuitBreaker) : Prop :=
  cb.state = CBState.opened ∨ cb.state = CBState.halfOpen →
    cb.failure_threshold ≤ cb.failure_count

theorem cbCall_closed_fail (cb : CircuitBreaker) (t : ℚ)
    (h : cb.state = CBState.closed) :
    (cbCall cb t false).1 = on_failure cb t := by
  simp [cbCall, h]

theorem applyFailures_opens (ts : List ℚ) : ∀ cb : CircuitBreaker,
    cb.state = CBState.closed →
    cb.failure_threshold = cb.failure_count + ts.length →
    ts ≠ [] →
    (applyFailures cb ts).state = CBState.opened := by
  induction ts with
  | nil => intro cb _ _ hne; exact absurd rfl hne
  | cons t ts ih =>
    intro cb hclosed hθ _
    have happ : applyFailures cb (t :: ts) = applyFailures (on_failure cb t) ts := by
      show applyFailures (cbCall cb t false).1 ts = _
      rw [cbCall_closed_fail cb t hclosed]
    rw [happ]
    by_cases hts : ts = []
    · subst hts
      show (on_failure cb t).state = CBState.opened
      simp only [on_failure]
      rw [if_pos (by simp at hθ; omega)]
    · have hlen : 1 ≤ ts.length := List.length_pos.2 hts
      apply ih (on_failure cb t)
      · simp only [on_failure]
        rw [if_neg (by simp at hθ; omega)]
        exact hclosed
      · simp only [on_failure]
        simp at hθ
        omega
      · exact hts

theorem cbInv_preserved (c : CircuitBreaker) (t : ℚ) (o : Bool)
    (hinv : cbInv c) : cbInv (cbCall c t o).1 := by
  by_cases hrej : c.state = CBState.opened ∧ ¬ should_attempt_reset c t
  · rw [show (cbCall c t o).1 = c by unfold cbCall; rw [if_pos hrej]]
    exact hinv
  · cases o with
    | true =>
      rw [show (cbCall c t true).1 = on_success (if c.state = CBState.opened
          then { c with state := CBState.halfOpen } else c) by
        unfold cbCall; rw [if_neg hrej]; rfl]
      intro h
      simp [on_success] at h
    | false =>
      rw [show (cbCall c t false).1 = on_failure (if c.state = CBState.opened
          then { c with state := CBState.halfOpen } else c) t by
        unfold cbCall; rw [if_neg hrej]; rfl]
      intro h
      by_cases hop : c.state = CBState.opened
      · have h0 := hinv (Or.inl hop)
        simp [on_failure, hop]
        omega
      · simp [on_failure, hop] at h ⊢
        rcases h with h1 | h1
        · omega
        · by_cases hth : c.failure_threshold ≤ c.failure_count + 1
          · omega
          · rw [if_neg hth] at h1
            have := hinv (Or.inr h1)
            omega

/-- C5: the circuit breaker is a state machine over closed, open and
half-open: from a fresh breaker, `failure_threshold` consecutive failing
guarded calls reach the open state; while open and within
`recovery_timeout` of the last failure every call is rejected without
invoking the wrapped function and without changing the breaker; the first
call after the timeout is admitted (half-open), success returns the
breaker to closed with `failure_count` 0, and failure returns it to open;
and the reachability invariant `cbInv` is preserved by every call. -/
theorem circuit_breaker_state_machine
    (threshold : ℕ) (timeout : ℚ) (ts : List ℚ) (cb : CircuitBreaker)
    (now lf : ℚ) (s : Bool)
    (hts : ts.length = threshold) (hone : 1 ≤ threshold)
    (hopen : cb.state = CBState.opened)
    (hlf : cb.last_failure_time = some lf)
    (hcnt : cb.failure_threshold ≤ cb.failure_count) :
    (applyFailures (CircuitBreaker.init threshold timeout) ts).state
      = CBState.opened ∧
    (now - lf < cb.recovery_timeout →
      cbCall cb now s = (cb, CallOutcome.rejected)) ∧
    (cb.recovery_timeout ≤ now - lf →
      cbCall cb now true =
        ({ cb with failure_count := 0, state := CBState.closed },
          CallOutcome.succeeded)) ∧
    (cb.recovery_timeout ≤ now - lf →
      (cbCall cb now false).1.state = CBState.opened ∧
      (cbCall cb now false).2 = CallOutcome.failed ∧
      (cbCall cb now false).1.failure_count = cb.failure_count + 1) ∧
    (∀ c : CircuitBreaker, ∀ t : ℚ, ∀ o : Bool, cbInv c → cbInv (cbCall c t o).1) := by
  refine ⟨?_, ?_, ?_, ?_, cbInv_preserved⟩
  · apply applyFailures_opens ts (CircuitBreaker.init threshold timeout) rfl
    · simp [CircuitBreaker.init, hts]
    · intro h
      rw [h] at hts
      simp at hts
      omega
  · intro hlt
    have hrst : should_attempt_reset cb now = false := by
      simp only [should_attempt_reset, hlf]
      exact decide_eq_false (not_le.2 hlt)
    unfold cbCall
    rw [if_pos ⟨hopen, by simp [hrst]⟩]
  · intro hge
    have hrst : should_attempt_reset cb now = true := by
      simp only [should_attempt_reset, hlf]
      exact decide_eq_true hge
    unfold cbCall
    rw [if_neg (by simp [hrst])]
    show (on_success (if cb.state = CBState.opened
        then { cb with state := CBState.halfOpen } else cb),
      CallOutcome.succeeded) = _
    rw [if_pos hopen]
    rfl
  · intro hge
    have hrst : should_attempt_reset cb now = true := by
      simp only [should_attempt_reset, hlf]
      exact decide_eq_true hge
    have h1 : cbCall cb now false =
        (on_failure { cb with state := CBState.halfOpen } now,
          CallOutcome.failed) := by
      unfold cbCall
      rw [if_neg (by simp [hrst])]
      show (on_failure (if cb.state = CBState.opened
          then { cb with state := CBState.halfOpen } else cb) now,
        CallOutcome.failed) = _
      rw [if_pos hopen]
    rw [h1]
    refine ⟨?_, rfl, rfl⟩
    simp only [on_failure]
    rw [if_pos (by omega)]

theorem circuit_breaker_state_machine_witness :
    (applyFailures (CircuitBreaker.init 3 60) [0, 1, 2]).state = CBState.opened ∧
    cbCall ⟨3, 60, 3, some 2, CBState.opened⟩ 30 true
      = (⟨3, 60, 3, some 2, CBState.opened⟩, CallOutcome.rejected) ∧
    cbCall ⟨3, 60, 3, some 2, CBState.opened⟩ 62 true
      = (⟨3, 60, 0, some 2, CBState.closed⟩, CallOutcome.succeeded) ∧
    (cbCall ⟨3, 60, 3, some 2, CBState.opened⟩ 62 false).1.state
      = CBState.opened := by
  have h1 := circuit_breaker_state_machine 3 60 [0, 1, 2]
    ⟨3, 60, 3, some 2, CBState.opened⟩ 30 2 true rfl (by omega) rfl rfl (le_refl 3)
  have h2 := circuit_breaker_state_machine 3 60 [0, 1, 2]
    ⟨3, 60, 3, some 2, CBState.opened⟩ 62 2 true rfl (by omega) rfl rfl (le_refl 3)
  exact ⟨h1.1, h1.2.1 (by norm_num), h2.2.2.1 (by norm_num),
    (h2.2.2.2.1 (by norm_num)).1⟩

/-! ### Embedding service (`embedding_service.py`)

`generate_embedding` is decorated with `@embedding_circuit_breaker`; its
body catches every model failure internally (retry exhaustion included)
and substitutes the heuristic fallback vector, so the only way the
wrapped call can raise is the breaker rejecting it while open.  The
distributed cache and the (retried) model call are oracles supplied in
`EmbedEnv`: `modelResult = none` means the model call kept failing until
`RetryHandler.retry_with_backoff` exhausted its retries. -/

/-- The `_preprocess_text` method: empty or blank input maps to the empty
string, otherwise strip, collapse internal whitespace runs, and truncate
to 8000 characters. -/
def preprocess_text (text : String) : String :=
  if pyStrip text = "" then ""
  else pyTake (joinWith " " (pyWords (pyStrip text))) 8000

/-- The keyword list of `GracefulDegradation.embedding_fallback`. -/
def embedding_keywords : List String :=
  ["experience", "skill", "education", "project", "work", "manage", "develop"]

/-- The `GracefulDegradation.embedding_fallback` heuristic vector:
normalised text length, normalised word count, character diversity and
domain-keyword score, padded with zeros to the target dimension. -/
def embedding_fallback (text : String) (dimension : ℕ) : List ℚ :=
  let lengthFeature : ℚ := min ((text.data.length : ℚ) / 1000) 1
  let wordCountFeature : ℚ := min (((pyWords text).length : ℚ) / 500) 1
  let charDiversityFeature : ℚ := min (((pyLower text).data.toFinset.card : ℚ) / 26) 1
  let keywordScore : ℚ :=
    ((embedding_keywords.filter
        (fun k => listContainsSub k.data (pyLower text).data)).length : ℚ)
      / (embedding_keywords.length : ℚ)
  let features := [lengthFeature, wordCountFeature, charDiversityFeature, keywordScore]
  (features ++ List.replicate (dimension - features.length) 0).take dimension

/-- Cache and model oracles seen by one `generate_embedding` call. -/
structure EmbedEnv where
  cache : String → Option (List ℚ)
  modelResult : Option (List ℚ)

/-- Python truthiness of the cached value: `if cached_embedding:` treats
both a missing entry and an empty list as a miss. -/
def truthyCacheHit : Option (List ℚ) → Option (List ℚ)
  | some v => if v = [] then none else some v
  | none => none

/-- The raised `ExternalServiceError` of the open circuit breaker. -/
inductive EmbedCallError where
  | circuitOpen
deriving DecidableEq

/-- The `EmbeddingService.generate_embedding` method (lines 61-123) under
its `@embedding_circuit_breaker` decorator: reject while the breaker is
open and unexpired; otherwise return zeros for blank input, the cached
vector on a cache hit, the model result when the (retried) model call
succeeds, and the heuristic fallback vector once retries are exhausted —
the body never raises, so the breaker records a success. -/
def generate_embedding (cb : CircuitBreaker) (now : ℚ) (env : EmbedEnv)
    (text : String) (dimension : ℕ) :
    CircuitBreaker × Except EmbedCallError (List ℚ) :=
  if cb.state = CBState.opened ∧ ¬ should_attempt_reset cb now then
    (cb, Except.error EmbedCallError.circuitOpen)
  else
    let cb1 := if cb.state = CBState.opened then
      { cb with state := CBState.halfOpen } else cb
    let processed := preprocess_text text
    let result : List ℚ :=
      if processed = "" then List.replicate dimension 0
      else
        match truthyCacheHit (env.cache processed) with
        | some v => v
        | none =>
          match env.modelResult with
          | some v => v
          | none => embedding_fallback processed dimension
    (on_success cb1, Except.ok result)

/-- C6 (amended): when the model call keeps failing until retries are
exhausted and the cache misses, `generate_embedding` returns — without
raising — the deterministic heuristic fallback vector for the
preprocessed text, provided the circuit breaker admits the call; when the
breaker is open and `recovery_timeout` has not elapsed, the call instead
raises `ExternalServiceError` without invoking the model or building the
fallback. -/
theorem generate_embedding_fallback_spec
    (cb : CircuitBreaker) (now : ℚ) (env : EmbedEnv) (text : String)
    (dimension : ℕ)
    (hmodel : env.modelResult = none)
    (hcache : truthyCacheHit (env.cache (preprocess_text text)) = none)
    (hproc : preprocess_text text ≠ "") :
    (¬ (cb.state = CBState.opened ∧ ¬ should_attempt_reset cb now) →
      generate_embedding cb now env text dimension =
        (on_success (if cb.state = CBState.opened then
            { cb with state := CBState.halfOpen } else cb),
          Except.ok (embedding_fallback (preprocess_text text) dimension))) ∧
    (cb.state = CBState.opened ∧ ¬ should_attempt_reset cb now →
      generate_embedding cb now env text dimension =
        (cb, Except.error EmbedCallError.circuitOpen)) := by
  constructor
  · intro hallow
    unfold generate_embedding
    rw [if_neg hallow]
    show (on_success _, Except.ok (if preprocess_text text = "" then _ else _)) = _
    rw [if_neg hproc, hcache, hmodel]
  · intro hrej
    unfold generate_embedding
    rw [if_pos hrej]

theorem generate_embedding_fallback_spec_witness :
    generate_embedding (CircuitBreaker.init 3 60) 0
        ⟨fun _ => none, none⟩ "experience with python" 6
      = (on_success (if (CircuitBreaker.init 3 60).state = CBState.opened then
            { CircuitBreaker.init 3 60 with state := CBState.halfOpen }
          else CircuitBreaker.init 3 60),
        Except.ok (embedding_fallback (preprocess_text "experience with python") 6)) :=
  (generate_embedding_fallback_spec (CircuitBreaker.init 3 60) 0
    ⟨fun _ => none, none⟩ "experience with python" 6 rfl rfl (by decide)).1 (by decide)

/-- C6 counterexample: with the breaker open one second after its last
failure (recovery timeout 60 s), `generate_embedding` raises instead of
returning the fallback vector, refuting the claim for the open-circuit
case. -/
theorem generate_embedding_open_circuit_counterexample :
    (generate_embedding ⟨3, 60, 3, some 0, CBState.opened⟩ 1
        ⟨fun _ => none, none⟩ "experience with python" 6).2
      ≠ Except.ok (embedding_fallback
          (preprocess_text "experience with python") 6) := by
  have hrej : (⟨3, 60, 3, some 0, CBState.opened⟩ : CircuitBreaker).state
      = CBState.opened ∧
      ¬ should_attempt_reset ⟨3, 60, 3, some 0, CBState.opened⟩ 1 := by
    refine ⟨rfl, ?_⟩
    show ¬ (decide ((60 : ℚ) ≤ 1 - 0) = true)
    simp only [decide_eq_true_eq]
    norm_num
  have h1 : generate_embedding ⟨3, 60, 3, some 0, CBState.opened⟩ 1
      ⟨fun _ => none, none⟩ "experience with python" 6
      = (⟨3, 60, 3, some 0, CBState.opened⟩,
          Except.error EmbedCallError.circuitOpen) := by
    unfold generate_embedding
    rw [if_pos hrej]
  rw [h1]
  simp

/-! ### Similarity service (`similarity_service.py`)

Vectors are lists of exact rationals; the cosine value lives in ℝ because
of the square roots.  The zero-magnitude guard `float(magnitude) == 0`
is expressed on the squared magnitude, since for a nonnegative rational
`d` the real square root vanishes exactly when `d = 0`. -/

/-- The `np.dot` of two equal-length vectors. -/
def dotList (a b : List ℚ) : ℚ := (List.zipWith (fun x y => x * y) a b).sum

/-- Squared Euclidean magnitude: `np.linalg.norm(v) ** 2`. -/
def sumSq (a : List ℚ) : ℚ := dotList a a

theorem sumSq_cons (x : ℚ) (xs : List ℚ) :
    sumSq (x :: xs) = x * x + sumSq xs := rfl

theorem sumSq_nonneg (a : List ℚ) : 0 ≤ sumSq a := by
  induction a with
  | nil => exact le_refl 0
  | cons x xs ih =>
    rw [sumSq_cons]
    exact add_nonneg (mul_self_nonneg x) ih

theorem sumSq_pos {v : List ℚ} (hv : ∃ x ∈ v, x ≠ 0) : 0 < sumSq v := by
  induction v with
  | nil => simp at hv
  | cons x xs ih =>
    rw [sumSq_cons]
    rcases hv with ⟨y, hy, hyne⟩
    rcases List.mem_cons.1 hy with rfl | hmem
    · have h1 : 0 < y * y := mul_self_pos.2 hyne
      have h2 := sumSq_nonneg xs
      linarith
    · have h1 := ih ⟨y, hmem, hyne⟩
      have h2 := mul_self_nonneg x
      linarith

theorem dotList_map_neg (v : List ℚ) :
    dotList v (v.map (fun x => -x)) = -(sumSq v) := by
  induction v with
  | nil => rfl
  | cons x xs ih =>
    show x * -x + dotList xs (xs.map (fun x => -x)) = _
    rw [ih, sumSq_cons]
    ring

theorem sumSq_map_neg (v : List ℚ) :
    sumSq (v.map (fun x => -x)) = sumSq v := by
  induction v with
  | nil => rfl
  | cons x xs ih =>
    show -x * -x + sumSq (xs.map (fun x => -x)) = _
    rw [ih, sumSq_cons]
    ring

/-- The `SimilarityService.calculate_cosine_similarity` method
(lines 50-97): 0 for a missing, empty, dimension-mismatched or
zero-magnitude vector, otherwise the cosine clamped into [-1, 1]. -/
noncomputable def calculate_cosine_similarity :
    Option (List ℚ) → Option (List ℚ) → ℝ
  | none, _ => 0
  | _, none => 0
  | some e1, some e2 =>
    if e1.length = 0 ∨ e2.length = 0 then 0
    else if e1.length ≠ e2.length then 0
    else if sumSq e1 = 0 ∨ sumSq e2 = 0 then 0
    else
      max (-1) (min 1 (((dotList e1 e2 : ℚ) : ℝ) /
        (Real.sqrt ((sumSq e1 : ℚ) : ℝ) * Real.sqrt ((sumSq e2 : ℚ) : ℝ))))

theorem calculate_cosine_similarity_bounds (o1 o2 : Option (List ℚ)) :
    -1 ≤ calculate_cosine_similarity o1 o2 ∧
      calculate_cosine_similarity o1 o2 ≤ 1 := by
  match o1, o2 with
  | none, o2 =>
    cases o2 <;> (constructor <;> norm_num [calculate_cosine_similarity])
  | some e1, none =>
    rw [show calculate_cosine_similarity (some e1) none = 0 from rfl]
    constructor <;> norm_num
  | some e1, some e2 =>
    rw [show calculate_cosine_similarity (some e1) (some e2) =
      (if e1.length = 0 ∨ e2.length = 0 then 0
       else if e1.length ≠ e2.length then 0
       else if sumSq e1 = 0 ∨ sumSq e2 = 0 then 0
       else max (-1) (min 1 (((dotList e1 e2 : ℚ) : ℝ) /
         (Real.sqrt ((sumSq e1 : ℚ) : ℝ) * Real.sqrt ((sumSq e2 : ℚ) : ℝ)))))
      from rfl]
    split_ifs with h1 h2 h3
    · constructor <;> norm_num
    · constructor <;> norm_num
    · constructor <;> norm_num
    · exact ⟨le_max_left _ _, max_le (by norm_num) (min_le_left _ _)⟩

theorem calculate_cosine_similarity_self {v : List ℚ} (hv : ∃ x ∈ v, x ≠ 0) :
    calculate_cosine_similarity (some v) (some v) = 1 := by
  have hne : v ≠ [] := by
    rcases hv with ⟨x, hx, _⟩
    exact List.ne_nil_of_mem hx
  have hlen : ¬ (v.length = 0 ∨ v.length = 0) := by
    simp [List.length_eq_zero, hne]
  have hpos := sumSq_pos hv
  have hz : ¬ (sumSq v = 0 ∨ sumSq v = 0) := by
    simp [ne_of_gt hpos]
  rw [show calculate_cosine_similarity (some v) (some v) =
    (if v.length = 0 ∨ v.length = 0 then 0
     else if v.length ≠ v.length then 0
     else if sumSq v = 0 ∨ sumSq v = 0 then 0
     else max (-1) (min 1 (((dotList v v : ℚ) : ℝ) /
       (Real.sqrt ((sumSq v : ℚ) : ℝ) * Real.sqrt ((sumSq v : ℚ) : ℝ)))))
    from rfl]
  rw [if_neg hlen, if_neg (by simp), if_neg hz]
  have hposR : (0 : ℝ) < ((sumSq v : ℚ) : ℝ) := by exact_mod_cast hpos
  have hsqrt : Real.sqrt ((sumSq v : ℚ) : ℝ) * Real.sqrt ((sumSq v : ℚ) : ℝ)
      = ((sumSq v : ℚ) : ℝ) := Real.mul_self_sqrt (le_of_lt hposR)
  rw [hsqrt]
  rw [show (dotList v v : ℚ) = sumSq v from rfl]
  rw [div_self (ne_of_gt hposR)]
  rw [min_self]
  exact max_eq_right (by norm_num)

theorem calculate_cosine_similarity_neg {v : List ℚ} (hv : ∃ x ∈ v, x ≠ 0) :
    calculate_cosine_similarity (some v) (some (v.map (fun x => -x))) = -1 := by
  have hne : v ≠ [] := by
    rcases hv with ⟨x, hx, _⟩
    exact List.ne_nil_of_mem hx
  have hlen : ¬ (v.length = 0 ∨ (v.map (fun x => -x)).length = 0) := by
    simp [List.length_eq_zero, hne]
  have hpos := sumSq_pos hv
  have hz : ¬ (sumSq v = 0 ∨ sumSq (v.map (fun x => -x)) = 0) := by
    rw [sumSq_map_neg]
    simp [ne_of_gt hpos]
  rw [show calculate_cosine_similarity (some v) (some (v.map (fun x => -x))) =
    (if v.length = 0 ∨ (v.map (fun x => -x)).length = 0 then 0
     else if v.length ≠ (v.map (fun x => -x)).length then 0
     else if sumSq v = 0 ∨ sumSq (v.map (fun x => -x)) = 0 then 0
     else max (-1) (min 1 (((dotList v (v.map (fun x => -x)) : ℚ) : ℝ) /
       (Real.sqrt ((sumSq v : ℚ) : ℝ) *
         Real.sqrt ((sumSq (v.map (fun x => -x)) : ℚ) : ℝ)))))
    from rfl]
  rw [if_neg hlen, if_neg (by simp), if_neg hz]
  have hposR : (0 : ℝ) < ((sumSq v : ℚ) : ℝ) := by exact_mod_cast hpos
  rw [sumSq_map_neg, dotList_map_neg]
  have hsqrt : Real.sqrt ((sumSq v : ℚ) : ℝ) * Real.sqrt ((sumSq v : ℚ) : ℝ)
      = ((sumSq v : ℚ) : ℝ) := Real.mul_self_sqrt (le_of_lt hposR)
  rw [hsqrt]
  have hval : ((-(sumSq v) : ℚ) : ℝ) / ((sumSq v : ℚ) : ℝ) = -1 := by
    push_cast
    rw [neg_div, div_self (ne_of_gt hposR)]
  rw [hval]
  rw [min_eq_right (by norm_num : (-1 : ℝ) ≤ 1)]
  exact max_self (-1)

/-- C3: `calculate_cosine_similarity` is total, always lands in [-1, 1],
returns 0 when either vector is missing, empty, dimension-mismatched or
of zero magnitude, and on any non-zero vector `v` it returns exactly 1
against `v` itself and exactly -1 against `-v`. -/
theorem calculate_cosine_similarity_spec (a b v : List ℚ)
    (hv : ∃ x ∈ v, x ≠ 0) :
    (∀ o1 o2 : Option (List ℚ),
      -1 ≤ calculate_cosine_similarity o1 o2 ∧
        calculate_cosine_similarity o1 o2 ≤ 1) ∧
    calculate_cosine_similarity none (some b) = 0 ∧
    calculate_cosine_similarity (some a) none = 0 ∧
    calculate_cosine_similarity (some []) (some b) = 0 ∧
    calculate_cosine_similarity (some a) (some []) = 0 ∧
    (a.length ≠ b.length → calculate_cosine_similarity (some a) (some b) = 0) ∧
    (sumSq a = 0 → calculate_cosine_similarity (some a) (some b) = 0) ∧
    (sumSq b = 0 → calculate_cosine_similarity (some a) (some b) = 0) ∧
    calculate_cosine_similarity (some v) (some v) = 1 ∧
    calculate_cosine_similarity (some v) (some (v.map (fun x => -x))) = -1 := by
  have hsome : ∀ x y : List ℚ, calculate_cosine_similarity (some x) (some y) =
      (if x.length = 0 ∨ y.length = 0 then 0
       else if x.length ≠ y.length then 0
       else if sumSq x = 0 ∨ sumSq y = 0 then 0
       else max (-1) (min 1 (((dotList x y : ℚ) : ℝ) /
         (Real.sqrt ((sumSq x : ℚ) : ℝ) * Real.sqrt ((sumSq y : ℚ) : ℝ))))) :=
    fun x y => rfl
  refine ⟨calculate_cosine_similarity_bounds, rfl, rfl, ?_, ?_, ?_, ?_, ?_,
    calculate_cosine_similarity_self hv, calculate_cosine_similarity_neg hv⟩
  · rw [hsome]
    simp
  · rw [hsome]
    simp
  · intro hne
    rw [hsome]
    by_cases h0 : a.length = 0 ∨ b.length = 0
    · rw [if_pos h0]
    · rw [if_neg h0, if_pos hne]
  · intro hz
    rw [hsome]
    by_cases h0 : a.length = 0 ∨ b.length = 0
    · rw [if_pos h0]
    · by_cases h1 : a.length ≠ b.length
      · rw [if_neg h0, if_pos h1]
      · rw [if_neg h0, if_neg h1, if_pos (Or.inl hz)]
  · intro hz
    rw [hsome]
    by_cases h0 : a.length = 0 ∨ b.length = 0
    · rw [if_pos h0]
    · by_cases h1 : a.length ≠ b.length
      · rw [if_neg h0, if_pos h1]
      · rw [if_neg h0, if_neg h1, if_pos (Or.inr hz)]

theorem calculate_cosine_similarity_spec_witness :
    (∃ x ∈ [(1 : ℚ), 2], x ≠ 0) ∧
    calculate_cosine_similarity (some [(1 : ℚ), 2]) (some [(1 : ℚ), 2]) = 1 ∧
    calculate_cosine_similarity (some [(1 : ℚ), 2])
      (some ([(1 : ℚ), 2].map (fun x => -x))) = -1 := by
  have hv : ∃ x ∈ [(1 : ℚ), 2], x ≠ 0 := by decide
  have h := calculate_cosine_similarity_spec [] [] [(1 : ℚ), 2] hv
  exact ⟨hv, h.2.2.2.2.2.2.2.2.1, h.2.2.2.2.2.2.2.2.2⟩

/-- Python `round` on a real value, ties to even. -/
noncomputable def pyRoundR (x : ℝ) : ℤ :=
  if Int.fract x = 1/2 then (if Even ⌊x⌋ then ⌊x⌋ else ⌊x⌋ + 1) else round x

/-- Python `round(x, 2)` on a real value. -/
noncomputable def pyRound2R (x : ℝ) : ℝ := (pyRoundR (x * 100) : ℝ) / 100

theorem pyRoundR_le_of_le {x : ℝ} {b : ℤ} (hb : x ≤ (b : ℝ)) : pyRoundR x ≤ b := by
  unfold pyRoundR
  split
  · rename_i htie
    have hfl : ⌊x⌋ ≤ b := by
      have := Int.floor_le_floor hb
      simpa using this
    have hq : x = (⌊x⌋ : ℝ) + 1/2 := by
      have h2 := Int.fract_add_floor x
      rw [htie] at h2
      linarith
    have hlt2 : ⌊x⌋ < b := by
      have hlt : (⌊x⌋ : ℝ) < (b : ℝ) := by rw [hq] at hb; linarith
      exact_mod_cast hlt
    split
    · exact hfl
    · omega
  · rw [round_eq]
    have h1 : x + 1/2 < (b : ℝ) + 1 := by linarith
    have h2 : ⌊x + 1/2⌋ < b + 1 := by
      rw [Int.floor_lt]
      push_cast
      linarith
    omega

theorem pyRoundR_ge_of_ge {x : ℝ} {a : ℤ} (ha : (a : ℝ) ≤ x) : a ≤ pyRoundR x := by
  unfold pyRoundR
  split
  · have hfl : a ≤ ⌊x⌋ := by
      have := Int.floor_le_floor ha
      simpa using this
    split
    · exact hfl
    · omega
  · rw [round_eq]
    have h1 : (a : ℝ) ≤ x + 1/2 := by linarith
    have := Int.floor_le_floor h1
    simpa using this

theorem pyRound2R_bounds {x : ℝ} (h0 : 0 ≤ x) (h100 : x ≤ 100) :
    0 ≤ pyRound2R x ∧ pyRound2R x ≤ 100 := by
  have hge : (0 : ℤ) ≤ pyRoundR (x * 100) :=
    pyRoundR_ge_of_ge (by push_cast; linarith)
  have hle : pyRoundR (x * 100) ≤ (10000 : ℤ) :=
    pyRoundR_le_of_le (by push_cast; linarith)
  constructor
  · unfold pyRound2R
    have : (0 : ℝ) ≤ (pyRoundR (x * 100) : ℝ) := by exact_mod_cast hge
    linarith
  · unfold pyRound2R
    have : (pyRoundR (x * 100) : ℝ) ≤ 10000 := by exact_mod_cast hle
    linarith

/-- The `SimilarityService.normalize_to_percentage` method (lines 99-141):
linear, sigmoid and exponential normalisation methods, any other method
string falling back to linear, the result clamped into [0, 100] and
rounded to two decimals. -/
noncomputable def normalize_to_percentage (similarity_score : ℝ)
    (method : String) : ℝ :=
  let normalized :=
    if method = "linear" then (similarity_score + 1) * 50
    else if method = "sigmoid" then
      (1 / (1 + Real.exp (-(similarity_score * 5)))) * 100
    else if method = "exponential" then
      (if 0 < similarity_score then
        (Real.exp similarity_score - 1) / (Real.exp 1 - 1) * 100 else 0)
    else (similarity_score + 1) * 50
  pyRound2R (max 0 (min 100 normalized))

/-- C9: `normalize_to_percentage` is total over method strings: for every
finite similarity score and every method the result lies in [0, 100], is
an integer multiple of 1/100 (two decimal places), and any method other
than linear, sigmoid or exponential is handled exactly like linear. -/
theorem normalize_to_percentage_spec (s : ℝ) (method : String) :
    0 ≤ normalize_to_percentage s method ∧
    normalize_to_percentage s method ≤ 100 ∧
    (∃ k : ℤ, normalize_to_percentage s method = (k : ℝ) / 100) ∧
    (method ∉ (["linear", "sigmoid", "exponential"] : List String) →
      normalize_to_percentage s method = normalize_to_percentage s "linear") := by
  have hclamp0 : ∀ y : ℝ, (0 : ℝ) ≤ max 0 (min 100 y) := fun y => le_max_left 0 _
  have hclamp100 : ∀ y : ℝ, max 0 (min 100 y) ≤ 100 := fun y =>
    max_le (by norm_num) (min_le_left 100 y)
  obtain ⟨hb0, hb100⟩ := pyRound2R_bounds (hclamp0
    (if method = "linear" then (s + 1) * 50
     else if method = "sigmoid" then (1 / (1 + Real.exp (-(s * 5)))) * 100
     else if method = "exponential" then
       (if 0 < s then (Real.exp s - 1) / (Real.exp 1 - 1) * 100 else 0)
     else (s + 1) * 50)) (hclamp100 _)
  refine ⟨hb0, hb100, ⟨pyRoundR ((max 0 (min 100
    (if method = "linear" then (s + 1) * 50
     else if method = "sigmoid" then (1 / (1 + Real.exp (-(s * 5)))) * 100
     else if method = "exponential" then
       (if 0 < s then (Real.exp s - 1) / (Real.exp 1 - 1) * 100 else 0)
     else (s + 1) * 50))) * 100), rfl⟩, ?_⟩
  intro hmem
  simp only [List.mem_cons, List.mem_singleton, not_or] at hmem
  obtain ⟨hm1, hm2, hm3, -⟩ := hmem
  show pyRound2R (max 0 (min 100 _)) = pyRound2R (max 0 (min 100 _))
  rw [if_neg hm1, if_neg hm2, if_neg hm3, if_pos rfl]

theorem normalize_to_percentage_spec_witness :
    normalize_to_percentage 0 "weird" = normalize_to_percentage 0 "linear" :=
  (normalize_to_percentage_spec 0 "weird").2.2.2 (by decide)

/-! ### Match-result persistence (`_store_match_results` and
`repositories/match_result.py`)

The store is a list of rows with surrogate ids; `get_match` is the
repository lookup by the `(job_id, resume_id)` natural key, and
`store_one` is one iteration of the `_store_match_results` loop:
`update` on the existing row when the lookup succeeds, `create` with a
fresh id otherwise. -/

structure MatchResultRecord where
  id : ℕ
  job_id : String
  resume_id : String
  match_score : ℚ
  confidence_score : ℚ
  explanation : String
  key_strengths : Finset String
  missing_skills : Finset String
  skill_matches_matched : Finset String
  skill_matches_missing : Finset String
  skill_matches_additional : Finset String
  skills_score : ℚ
deriving DecidableEq

/-- The `match_data` dict of `_store_match_results`, materialised as the
row with id `i`. -/
def recordFrom (i : ℕ) (m : ComprehensiveMatch) : MatchResultRecord :=
  { id := i, job_id := m.job_id, resume_id := m.resume_id,
    match_score := m.overall_score, confidence_score := m.confidence,
    explanation := m.explanation, key_strengths := m.matched_skills,
    missing_skills := m.missing_skills,
    skill_matches_matched := m.matched_skills,
    skill_matches_missing := m.missing_skills,
    skill_matches_additional := m.additional_skills,
    skills_score := m.skill_match_percentage }

/-- The `(job_id, resume_id)` natural-key test of
`MatchResultRepository.get_match`. -/
def pairEq (j r : String) (rec : MatchResultRecord) : Bool :=
  rec.job_id == j && rec.resume_id == r

/-- The repository lookup `get_match(job_id, resume_id)`. -/
def get_match (db : List MatchResultRecord) (j r : String) :
    Option MatchResultRecord :=
  db.find? (pairEq j r)

/-- One iteration of the `_store_match_results` loop: update the existing
row in place when `get_match` finds one, otherwise create a new row under
the next fresh id. -/
def store_one (st : List MatchResultRecord × ℕ) (m : ComprehensiveMatch) :
    List MatchResultRecord × ℕ :=
  match get_match st.1 m.job_id m.resume_id with
  | some existing =>
    (st.1.map (fun rec =>
      if rec.id = existing.id then recordFrom existing.id m else rec), st.2)
  | none => (st.1 ++ [recordFrom st.2 m], st.2 + 1)

/-- The `_store_match_results` method (lines 440-485), iterating
`store_one` over the `matches` list. -/
def store_match_results (db : List MatchResultRecord) (nextId : ℕ)
    (ms : List ComprehensiveMatch) : List MatchResultRecord × ℕ :=
  ms.foldl store_one (db, nextId)

/-- Well-formedness of the store: ids are fresh-bounded and duplicate-free
and the `(job_id, resume_id)` pairing-uniqueness invariant holds. -/
def goodDb (db : List MatchResultRecord) (nextId : ℕ) : Prop :=
  (∀ rec ∈ db, rec.id < nextId) ∧
  (db.map (fun rec => rec.id)).Nodup ∧
  (∀ j r, (db.filter (pairEq j r)).length ≤ 1)

theorem pairEq_iff {j r : String} {rec : MatchResultRecord} :
    pairEq j r rec = true ↔ rec.job_id = j ∧ rec.resume_id = r := by
  simp [pairEq]

theorem recordFrom_pair (i : ℕ) (m : ComprehensiveMatch) :
    pairEq m.job_id m.resume_id (recordFrom i m) = true := by
  simp [pairEq, recordFrom]

theorem length_le_one_mem {α : Type} {l : List α} {x : α}
    (hx : x ∈ l) (hlen : l.length ≤ 1) : l = [x] := by
  match l with
  | [] => simp at hx
  | [y] =>
    simp at hx
    rw [hx]
  | y :: z :: rest => simp at hlen

theorem filter_map_update {α : Type} (f : α → α) (p : α → Bool) (l : List α)
    (hp : ∀ x ∈ l, p (f x) = p x) :
    (l.map f).filter p = (l.filter p).map f := by
  induction l with
  | nil => rfl
  | cons x xs ih =>
    have hx := hp x (List.mem_cons_self x xs)
    have ihx := ih (fun y hy => hp y (List.mem_cons_of_mem x hy))
    by_cases hc : p x = true
    · simp [List.filter_cons, hc, hx, ihx]
    · have hc2 : p x = false := by
        cases hpx : p x
        · rfl
        · exact absurd hpx hc
      simp [List.filter_cons, hc2, hx ▸ hc2, ihx]

theorem store_one_spec (db : List MatchResultRecord) (nextId : ℕ)
    (m : ComprehensiveMatch) (hgood : goodDb db nextId) :
    goodDb (store_one (db, nextId) m).1 (store_one (db, nextId) m).2 ∧
    (∃ i : ℕ, ((store_one (db, nextId) m).1.filter
      (pairEq m.job_id m.resume_id)) = [recordFrom i m]) ∧
    (db.filter (pairEq m.job_id m.resume_id) = [] →
      (store_one (db, nextId) m).1.length = db.length + 1 ∧
      (store_one (db, nextId) m).2 = nextId + 1) ∧
    (db.filter (pairEq m.job_id m.resume_id) ≠ [] →
      (store_one (db, nextId) m).1.length = db.length ∧
      (store_one (db, nextId) m).2 = nextId) := by
  obtain ⟨hbound, hnodup, hpairs⟩ := hgood
  cases hfind : get_match db m.job_id m.resume_id with
  | none =>
    have hs : store_one (db, nextId) m = (db ++ [recordFrom nextId m], nextId + 1) := by
      simp [store_one, hfind]
    have hnone : ∀ rec ∈ db, pairEq m.job_id m.resume_id rec = false := by
      intro rec hrec
      have h1 := List.find?_eq_none.1 hfind rec hrec
      cases hpx : pairEq m.job_id m.resume_id rec
      · rfl
      · exact absurd hpx h1
    have hfilter_nil : db.filter (pairEq m.job_id m.resume_id) = [] := by
      apply List.filter_eq_nil_iff.2
      intro a ha
      rw [hnone a ha]
      simp
    refine ⟨?_, ?_, ?_, ?_⟩
    · rw [hs]
      refine ⟨?_, ?_, ?_⟩
      · intro rec hrec
        rcases List.mem_append.1 hrec with h | h
        · exact lt_trans (hbound rec h) (Nat.lt_succ_self _)
        · simp at h
          rw [h]
          exact Nat.lt_succ_self nextId
      · rw [List.map_append]
        rw [List.nodup_append]
        refine ⟨hnodup, by simp, ?_⟩
        intro x hx
        simp only [List.map_cons, List.map_nil, List.mem_singleton]
        intro hy
        rcases List.mem_map.1 hx with ⟨rec, hrec, rfl⟩
        have := hbound rec hrec
        have hid : (recordFrom nextId m).id = nextId := rfl
        rw [hid] at hy
        omega
      · intro j r
        rw [List.filter_append]
        by_cases hp : pairEq j r (recordFrom nextId m) = true
        · have hjr := pairEq_iff.1 hp
          have hj : m.job_id = j := hjr.1
          have hr : m.resume_id = r := hjr.2
          rw [← hj, ← hr, hfilter_nil]
          exact le_trans (List.length_filter_le _ _) (by simp)
        · have hp2 : pairEq j r (recordFrom nextId m) = false := by
            cases h2 : pairEq j r (recordFrom nextId m)
            · rfl
            · exact absurd h2 hp
          rw [show List.filter (pairEq j r) [recordFrom nextId m] = [] by
            simp [List.filter_cons, hp2]]
          simpa using hpairs j r
    · refine ⟨nextId, ?_⟩
      rw [hs]
      show ((db ++ [recordFrom nextId m]).filter (pairEq m.job_id m.resume_id))
        = [recordFrom nextId m]
      rw [List.filter_append, hfilter_nil]
      simp [recordFrom_pair]
    · intro _
      rw [hs]
      constructor <;> simp
    · intro hne
      exact absurd hfilter_nil hne
  | some existing =>
    have hs : store_one (db, nextId) m = (db.map (fun rec =>
        if rec.id = existing.id then recordFrom existing.id m else rec), nextId) := by
      simp [store_one, hfind]
    have hpex : pairEq m.job_id m.resume_id existing = true := List.find?_some hfind
    have hmem : existing ∈ db := List.mem_of_find?_eq_some hfind
    have hpair_ex := pairEq_iff.1 hpex
    have hidinj : ∀ x ∈ db, ∀ y ∈ db, x.id = y.id → x = y := by
      intro x hx y hy hxy
      exact List.inj_on_of_nodup_map hnodup hx hy hxy
    have hf_pair : ∀ j r, ∀ rec ∈ db, pairEq j r
        (if rec.id = existing.id then recordFrom existing.id m else rec)
        = pairEq j r rec := by
      intro j r rec hrec
      by_cases hid : rec.id = existing.id
      · have hre : rec = existing := hidinj rec hrec existing hmem hid
        rw [if_pos hid, hre]
        simp [pairEq, recordFrom, hpair_ex.1, hpair_ex.2]
      · rw [if_neg hid]
    have hfilter_comm : ∀ j r, (db.map (fun rec =>
        if rec.id = existing.id then recordFrom existing.id m else rec)).filter
          (pairEq j r)
        = (db.filter (pairEq j r)).map (fun rec =>
            if rec.id = existing.id then recordFrom existing.id m else rec) :=
      fun j r => filter_map_update _ (pairEq j r) db (hf_pair j r)
    have hid_pres : ∀ rec ∈ db, (if rec.id = existing.id
        then recordFrom existing.id m else rec).id = rec.id := by
      intro rec hrec
      by_cases hid : rec.id = existing.id
      · rw [if_pos hid]
        exact hid.symm
      · rw [if_neg hid]
    have hfilter_ex : db.filter (pairEq m.job_id m.resume_id) = [existing] :=
      length_le_one_mem (List.mem_filter.2 ⟨hmem, hpex⟩) (hpairs _ _)
    refine ⟨?_, ?_, ?_, ?_⟩
    · rw [hs]
      refine ⟨?_, ?_, ?_⟩
      · intro rec hrec
        rcases List.mem_map.1 hrec with ⟨x, hx, rfl⟩
        rw [hid_pres x hx]
        exact hbound x hx
      · have hmm : (db.map (fun rec => if rec.id = existing.id
            then recordFrom existing.id m else rec)).map (fun rec => rec.id)
            = db.map (fun rec => rec.id) := by
          rw [List.map_map]
          exact List.map_congr_left hid_pres
        rw [hmm]
        exact hnodup
      · intro j r
        rw [hfilter_comm j r, List.length_map]
        exact hpairs j r
    · refine ⟨existing.id, ?_⟩
      rw [hs]
      show ((db.map (fun rec => if rec.id = existing.id
          then recordFrom existing.id m else rec)).filter
        (pairEq m.job_id m.resume_id)) = [recordFrom existing.id m]
      rw [hfilter_comm, hfilter_ex]
      simp
    · intro hnil
      rw [hfilter_ex] at hnil
      simp at hnil
    · intro _
      rw [hs]
      constructor <;> simp

/-- C8: storing two computed results for the same `(job_id, resume_id)`
pair into a well-formed store leaves exactly one row for that pair, whose
fields come from the second computation; a single store updates in place
(store size unchanged) when a row for the pair exists and inserts a fresh
row otherwise, and well-formedness — including the pairing-uniqueness
invariant — is preserved. -/
theorem store_match_results_upsert (db : List MatchResultRecord)
    (nextId : ℕ) (m1 m2 : ComprehensiveMatch)
    (hgood : goodDb db nextId)
    (hj : m1.job_id = m2.job_id) (hr : m1.resume_id = m2.resume_id) :
    (∃ i : ℕ,
      ((store_match_results db nextId [m1, m2]).1.filter
        (pairEq m2.job_id m2.resume_id)) = [recordFrom i m2]) ∧
    goodDb (store_match_results db nextId [m1, m2]).1
      (store_match_results db nextId [m1, m2]).2 ∧
    (db.filter (pairEq m1.job_id m1.resume_id) ≠ [] →
      (store_match_results db nextId [m1]).1.length = db.length) ∧
    (db.filter (pairEq m1.job_id m1.resume_id) = [] →
      (store_match_results db nextId [m1]).1.length = db.length + 1) ∧
    (store_match_results db nextId [m1, m2]).1.length
      = (store_match_results db nextId [m1]).1.length := by
  have hstep1 := store_one_spec db nextId m1 hgood
  have hs2 : store_match_results db nextId [m1, m2]
      = store_one (store_one (db, nextId) m1) m2 := rfl
  have hstep2 := store_one_spec (store_one (db, nextId) m1).1
    (store_one (db, nextId) m1).2 m2 hstep1.1
  refine ⟨?_, ?_, ?_, ?_, ?_⟩
  · rw [hs2]
    exact hstep2.2.1
  · rw [hs2]
    exact hstep2.1
  · intro hne
    exact ((hstep1.2.2.2) hne).1
  · intro hnil
    exact ((hstep1.2.2.1) hnil).1
  · rw [hs2]
    obtain ⟨i, hfi⟩ := hstep1.2.1
    have hne : (store_one (db, nextId) m1).1.filter
        (pairEq m2.job_id m2.resume_id) ≠ [] := by
      rw [← hj, ← hr, hfi]
      simp
    exact (hstep2.2.2.2 hne).1

theorem store_match_results_upsert_witness :
    goodDb [] 0 ∧
    (∃ i : ℕ,
      ((store_match_results [] 0
        [mkScoredMatch "r1" 50, mkScoredMatch "r1" 80]).1.filter
          (pairEq (mkScoredMatch "r1" 80).job_id
            (mkScoredMatch "r1" 80).resume_id))
        = [recordFrom i (mkScoredMatch "r1" 80)]) := by
  have hgood : goodDb [] 0 := ⟨by simp, by simp, by simp⟩
  exact ⟨hgood, (store_match_results_upsert [] 0
    (mkScoredMatch "r1" 50) (mkScoredMatch "r1" 80) hgood rfl rfl).1⟩

/-! ### Explanation service (`explanation_service.py`)

The md5 digest is an arbitrary deterministic function of the content
string, supplied as a parameter; the Redis explanation cache is an
association list keyed by the digest; the LLM call is an oracle
(`none` meaning total failure after retries, which triggers the template
fallback).  Python float formatting is abstracted by `toString` on the
exact rational score. -/

/-- The `skill_analysis` dictionary passed to `generate_explanation`. -/
structure ExplSkillAnalysis where
  matched_skills : List String
  missing_skills : List String
deriving DecidableEq

def jsonStringList (xs : List String) : String :=
  "[" ++ joinWith ", " (xs.map (fun s => "\"" ++ s ++ "\"")) ++ "]"

/-- The `json.dumps(skill_analysis, sort_keys=True)` serialisation: keys
in sorted order, so `matched_skills` before `missing_skills`. -/
def json_dumps_sorted (sa : ExplSkillAnalysis) : String :=
  "\x7b\"matched_skills\": " ++ jsonStringList sa.matched_skills ++
    ", \"missing_skills\": " ++ jsonStringList sa.missing_skills ++ "\x7d"

/-- The `_get_explanation_hash` method (lines 75-79): md5 of the first
500 characters of the job description, the first 500 characters of the
resume, the score and the sorted-key JSON of the skill analysis. -/
def get_explanation_hash (md5 : String → String) (job_desc resume : String)
    (match_score : ℚ) (skill_analysis : ExplSkillAnalysis) : String :=
  md5 (pyTake job_desc 500 ++ pyTake resume 500 ++ toString match_score
    ++ json_dumps_sorted skill_analysis)

/-- The `GracefulDegradation.template_explanation_fallback` deterministic
template (`core/error_handler.py`, lines 363-397): assessment and
recommendation bucketed at 80/60/40, strengths and concerns from the top
three matched and missing skills. -/
def template_explanation_fallback (match_score : ℚ)
    (matched missing : List String) : String :=
  let assessment :=
    if (80 : ℚ) ≤ match_score then "Excellent match"
    else if (60 : ℚ) ≤ match_score then "Good match"
    else if (40 : ℚ) ≤ match_score then "Moderate match"
    else "Limited match"
  let recommendation :=
    if (80 : ℚ) ≤ match_score then "Highly recommended"
    else if (60 : ℚ) ≤ match_score then "Recommended with minor considerations"
    else if (40 : ℚ) ≤ match_score then "Consider with skill development plan"
    else "Not recommended for this role"
  let strengths :=
    if matched ≠ [] then
      joinWith "\n" ((matched.take 3).map (fun s => "• " ++ s))
    else "• Basic qualifications present"
  let concerns :=
    if missing ≠ [] then
      joinWith "\n" ((missing.take 3).map (fun s => "• Missing: " ++ s))
    else "• No significant gaps identified"
  "**Assessment**: " ++ assessment ++ " (" ++ toString match_score ++
    "% compatibility)\n\n**Strengths**:\n" ++ strengths ++
    "\n\n**Areas for Improvement**:\n" ++ concerns ++
    "\n\n**Recommendation**: " ++ recommendation ++
    "\n\n*Note: This is a simplified analysis. For detailed insights, please try again when our AI services are available.*"

/-- The `generate_explanation` method (lines 267-288): cache lookup by
the content hash short-circuits; on a miss the LLM result (or the
template fallback after total LLM failure) is computed and cached. -/
def generate_explanation (md5 : String → String)
    (cache : List (String × String)) (job_desc resume : String)
    (match_score : ℚ) (skill_analysis : ExplSkillAnalysis)
    (llmResult : Option String) : String × List (String × String) :=
  let cache_key := get_explanation_hash md5 job_desc resume match_score
    skill_analysis
  match cache.lookup cache_key with
  | some cached => (cached, cache)
  | none =>
    let explanation :=
      match llmResult with
      | some e => e
      | none => template_explanation_fallback match_score
          skill_analysis.matched_skills skill_analysis.missing_skills
    (explanation, (cache_key, explanation) :: cache)

/-- C10: the explanation cache key depends only on the first 500
characters of the job description, the first 500 characters of the
resume, the score and the skill analysis; consequently a second
`generate_explanation` call whose texts agree on those prefixes (with
equal score and skill analysis) computes the same key and returns the
cached explanation of the first call, whatever its own LLM oracle would have
produced. -/
theorem explanation_cache_prefix_spec (md5 : String → String)
    (j1 r1 j2 r2 : String) (score : ℚ) (sa : ExplSkillAnalysis)
    (cache : List (String × String)) (llm1 llm2 : Option String)
    (hj : pyTake j1 500 = pyTake j2 500)
    (hr : pyTake r1 500 = pyTake r2 500) :
    get_explanation_hash md5 j1 r1 score sa
      = get_explanation_hash md5 j2 r2 score sa ∧
    (generate_explanation md5
        (generate_explanation md5 cache j1 r1 score sa llm1).2
        j2 r2 score sa llm2).1
      = (generate_explanation md5 cache j1 r1 score sa llm1).1 := by
  have hkey : get_explanation_hash md5 j1 r1 score sa
      = get_explanation_hash md5 j2 r2 score sa := by
    unfold get_explanation_hash
    rw [hj, hr]
  refine ⟨hkey, ?_⟩
  cases heq : cache.lookup (get_explanation_hash md5 j1 r1 score sa) with
  | some v =>
    have h1 : generate_explanation md5 cache j1 r1 score sa llm1 = (v, cache) := by
      simp [generate_explanation, heq]
    rw [h1]
    simp [generate_explanation, ← hkey, heq]
  | none =>
    have h1 : generate_explanation md5 cache j1 r1 score sa llm1
        = ((match llm1 with
            | some e => e
            | none => template_explanation_fallback score
                sa.matched_skills sa.missing_skills),
          (get_explanation_hash md5 j1 r1 score sa,
            (match llm1 with
            | some e => e
            | none => template_explanation_fallback score
                sa.matched_skills sa.missing_skills)) :: cache) := by
      simp [generate_explanation, heq]
    rw [h1]
    simp [generate_explanation, ← hkey, List.lookup]

theorem explanation_cache_prefix_spec_witness :
    (generate_explanation (fun s => s)
        (generate_explanation (fun s => s) [] "job text" "resume text" 70
          ⟨["python"], ["sql"]⟩ (some "llm says yes")).2
        "job text" "resume text" 70
        ⟨["python"], ["sql"]⟩ none).1
      = (generate_explanation (fun s => s) [] "job text" "resume text" 70
          ⟨["python"], ["sql"]⟩ (some "llm says yes")).1 :=
  (explanation_cache_prefix_spec (fun s => s) "job text" "resume text"
    "job text" "resume text" 70 ⟨["python"], ["sql"]⟩ [] (some "llm says yes")
    none rfl rfl).2
